import Mathlib

/-!
Verification of the dollar-neutral computation engine
(`compute_dollar_neutral` in `bquant_app/logic.py`).

Embedding choices:
* Dates are `Nat`; a date-indexed series (`pd.Series`) is an association
  list `List (Date × ℚ)`, looked up with `lookupS`.  A date absent from
  the list plays the role of a missing (`NaN`) value; both are dropped by
  `dropna` in the source, so they are identified here.
* The aligned frame (`pd.concat(...).dropna().sort_index()`) is the sorted
  list of all dates at which the three lookups succeed; it is produced by
  filtering `List.range` over a bound covering every key, which yields the
  same set of dates in the same (ascending, duplicate-free) order.
* Errors (`ValueError` with four distinct messages in the source) are the
  four constructors of `DNError`, and the function returns
  `Except DNError (List Row)`.
* `df.at[anchor_date, c]` lookups are total in the source because the
  resolved anchor is always a member of the index; here they are written
  `(lookupS s t0).getD 0`, and the theorems show the default is never
  observable (the lookup is `some` at every reachable anchor).
-/

abbrev Date := Nat

abbrev Series := List (Date × ℚ)

namespace Bquant

/-- Value of a series at a date: `some v` when the date is present,
`none` when it is absent (pandas `NaN`). -/
def lookupS (s : Series) (d : Date) : Option ℚ :=
  match s with
  | [] => none
  | (k, v) :: rest => if d = k then some v else lookupS rest d

@[simp] theorem lookupS_nil (d : Date) : lookupS [] d = none := rfl

@[simp] theorem lookupS_cons (k : Date) (v : ℚ) (rest : Series) (d : Date) :
    lookupS ((k, v) :: rest) d = if d = k then some v else lookupS rest d :=
  rfl

/-- All keys (dates) appearing in the three input series. -/
def allKeys (cb_close udly_close ud_delta : Series) : List Date :=
  (cb_close ++ udly_close ++ ud_delta).map Prod.fst

/-- A bound strictly above every date appearing in any input. -/
def dateBound (cb_close udly_close ud_delta : Series) : Nat :=
  (allKeys cb_close udly_close ud_delta).foldr max 0 + 1

/-- The aligned frame's index: dates at which all three series have a
present value, ascending, without duplicates.  This models
`pd.concat({...}, axis=1).dropna().sort_index().index`. -/
def alignedIndex (cb_close udly_close ud_delta : Series) : List Date :=
  (List.range (dateBound cb_close udly_close ud_delta)).filter fun d =>
    (lookupS cb_close d).isSome && (lookupS udly_close d).isSome &&
      (lookupS ud_delta d).isSome

/-- Anchor-date resolution (source lines 57–67): `None` means the first
aligned date; an explicit date is used as-is when it is in the index, and
otherwise snapped forward to the first index entry on/after it
(`df.index.searchsorted`); `none` here models the
"anchor after last data point" `ValueError`. -/
def resolveT0 (idx : List Date) (anchor_date : Option Date) : Option Date :=
  match anchor_date with
  | none => idx.head?
  | some a => if a ∈ idx then some a else idx.find? fun d => decide (a ≤ d)

/-- D0 resolution (source lines 71–76): `delta_override` wins, then
`use_oldest_delta` reads the delta at the first aligned date
(`df["ud_delta"].iloc[0]`), otherwise the delta at the anchor. -/
def resolveD0 (ud_delta : Series) (idx : List Date) (t0 : Date)
    (delta_override : Option ℚ) (use_oldest_delta : Bool) : ℚ :=
  match delta_override with
  | some v => v
  | none =>
    if use_oldest_delta then (lookupS ud_delta (idx.headD 0)).getD 0
    else (lookupS ud_delta t0).getD 0

/-- One output row: the three base columns plus the derived `nuke` and
`dn` columns.  `nuke`/`dn` are optional because the `external_nuke` method
leaves them missing at uncovered dates. -/
structure Row where
  date : Date
  cb_close : ℚ
  udly_close : ℚ
  ud_delta : ℚ
  nuke : Option ℚ
  dn : Option ℚ
deriving Repr, DecidableEq

/-- The four failure modes of the computation (all `ValueError`s in the
source, distinguished by message). -/
inductive DNError where
  | unsupportedMethod
  | emptyOverlap
  | anchorOutOfRange
  | missingNukeSeries
deriving Repr, DecidableEq

/-- The row built by the `delta` method (source line 85–86):
`nuke = CB0 + D0 * (U(t) - U0)` and `dn = nuke - CB(t)`. -/
def deltaRow (cb_close udly_close ud_delta : Series) (CB0 U0 D0 : ℚ)
    (d : Date) : Row :=
  let cbt := (lookupS cb_close d).getD 0
  let ut := (lookupS udly_close d).getD 0
  let nuke := CB0 + D0 * (ut - U0)
  { date := d, cb_close := cbt, udly_close := ut,
    ud_delta := (lookupS ud_delta d).getD 0,
    nuke := some nuke, dn := some (nuke - cbt) }

/-- The row built by the `external_nuke` method (source line 82, 86):
`nuke` is the external series reindexed onto the aligned index (missing
where uncovered), and `dn = nuke - CB(t)` propagates the missing value. -/
def externalRow (cb_close udly_close ud_delta nuke_series : Series)
    (d : Date) : Row :=
  let cbt := (lookupS cb_close d).getD 0
  let nuke := lookupS nuke_series d
  { date := d, cb_close := cbt,
    udly_close := (lookupS udly_close d).getD 0,
    ud_delta := (lookupS ud_delta d).getD 0,
    nuke := nuke, dn := nuke.map fun v => v - cbt }

/-- Shallow embedding of `compute_dollar_neutral` (logic.py lines 7–88). -/
def compute_dollar_neutral (cb_close udly_close ud_delta : Series)
    (anchor_date : Option Date) (method : String)
    (nuke_series : Option Series) (delta_override : Option ℚ)
    (use_oldest_delta : Bool) : Except DNError (List Row) :=
  if method ≠ "delta" ∧ method ≠ "external_nuke" then
    .error .unsupportedMethod
  else
    let idx := alignedIndex cb_close udly_close ud_delta
    if idx = [] then .error .emptyOverlap
    else
      match resolveT0 idx anchor_date with
      | none => .error .anchorOutOfRange
      | some t0 =>
        let CB0 := (lookupS cb_close t0).getD 0
        let U0 := (lookupS udly_close t0).getD 0
        let D0 := resolveD0 ud_delta idx t0 delta_override use_oldest_delta
        if method = "external_nuke" then
          match nuke_series with
          | none => .error .missingNukeSeries
          | some ns =>
            .ok (idx.map (externalRow cb_close udly_close ud_delta ns))
        else
          .ok (idx.map (deltaRow cb_close udly_close ud_delta CB0 U0 D0))

/-- Decidable equality on results, used to evaluate the engine at concrete
inputs. -/
instance {ε α : Type} [DecidableEq ε] [DecidableEq α] :
    DecidableEq (Except ε α) := fun a b =>
  match a, b with
  | .ok x, .ok y =>
    if h : x = y then .isTrue (by rw [h]) else .isFalse (by simp [h])
  | .error x, .error y =>
    if h : x = y then .isTrue (by rw [h]) else .isFalse (by simp [h])
  | .ok _, .error _ => .isFalse (by simp)
  | .error _, .ok _ => .isFalse (by simp)

/-! ### Helper lemmas about lookups and the aligned index -/

theorem mem_keys_of_lookup_isSome {l : Series} {d : Date}
    (h : (lookupS l d).isSome) : d ∈ l.map Prod.fst := by
  induction l with
  | nil => simp at h
  | cons p l ih =>
    obtain ⟨k, v⟩ := p
    by_cases hd : d = k
    · simp [hd]
    · rw [lookupS_cons, if_neg hd] at h
      simp [ih h]

theorem mem_le_foldr_max {a : Nat} {l : List Nat} (h : a ∈ l) :
    a ≤ l.foldr max 0 := by
  induction l with
  | nil => simp at h
  | cons x l ih =>
    rcases List.mem_cons.mp h with rfl | h'
    · exact le_max_left _ _
    · exact le_trans (ih h') (le_max_right _ _)

/-- A date is in the aligned index exactly when all three series have a
present value there (the `dropna` semantics of the alignment step). -/
theorem mem_alignedIndex {cb u ud : Series} {d : Date} :
    d ∈ alignedIndex cb u ud ↔
      (lookupS cb d).isSome ∧ (lookupS u d).isSome ∧ (lookupS ud d).isSome := by
  unfold alignedIndex
  rw [List.mem_filter]
  constructor
  · rintro ⟨-, h⟩
    simp only [Bool.and_eq_true] at h
    exact ⟨h.1.1, h.1.2, h.2⟩
  · rintro ⟨h1, h2, h3⟩
    refine ⟨List.mem_range.mpr ?_, by simp [h1, h2, h3]⟩
    have hk : d ∈ allKeys cb u ud := by
      unfold allKeys
      simp only [List.map_append, List.mem_append]
      exact Or.inl (Or.inl (mem_keys_of_lookup_isSome h1))
    exact Nat.lt_succ_of_le (mem_le_foldr_max hk)

/-- The aligned index is strictly increasing (hence duplicate-free). -/
theorem alignedIndex_sorted (cb u ud : Series) :
    List.Sorted (· < ·) (alignedIndex cb u ud) :=
  (List.sorted_lt_range _).filter _

theorem alignedIndex_nodup (cb u ud : Series) :
    (alignedIndex cb u ud).Nodup :=
  (alignedIndex_sorted cb u ud).imp ne_of_lt

theorem getD_eq_of_isSome {o : Option ℚ} (h : o.isSome) :
    o = some (o.getD 0) := by
  cases o with
  | none => simp at h
  | some v => rfl

/-- A resolved anchor is always a member of the index it was resolved
against. -/
theorem resolveT0_mem {idx : List Date} {anchor : Option Date} {t0 : Date}
    (h : resolveT0 idx anchor = some t0) : t0 ∈ idx := by
  cases anchor with
  | none =>
    simp only [resolveT0] at h
    exact List.mem_of_mem_head? (Option.mem_def.mpr h)
  | some a =>
    simp only [resolveT0] at h
    by_cases ha : a ∈ idx
    · rw [if_pos ha] at h
      cases h
      exact ha
    · rw [if_neg ha] at h
      exact List.mem_of_find?_eq_some h

/-- The head of a strictly sorted list is its minimum. -/
theorem head?_le_of_sorted {l : List Date} {t0 : Date}
    (hs : List.Sorted (· < ·) l) (h : l.head? = some t0) :
    ∀ d ∈ l, t0 ≤ d := by
  cases l with
  | nil => simp at h
  | cons x xs =>
    cases h
    intro d hd
    rcases List.mem_cons.mp hd with rfl | hd'
    · exact le_refl _
    · exact le_of_lt ((List.sorted_cons.mp hs).1 d hd')

/-- `find?` with the predicate `a ≤ ·` on a strictly sorted list returns
exactly the least element that is `≥ a` (the `searchsorted` semantics). -/
theorem find?_ge_eq_some_iff {a t : Date} {l : List Date}
    (hs : List.Sorted (· < ·) l) :
    l.find? (fun d => decide (a ≤ d)) = some t ↔
      t ∈ l ∧ a ≤ t ∧ ∀ d ∈ l, a ≤ d → t ≤ d := by
  induction l with
  | nil => simp
  | cons x xs ih =>
    rw [List.sorted_cons] at hs
    obtain ⟨hx, hxs⟩ := hs
    by_cases hax : a ≤ x
    · rw [List.find?_cons_of_pos _ (by simpa using hax)]
      constructor
      · rintro h
        cases h
        refine ⟨List.mem_cons_self _ _, hax, ?_⟩
        intro d hd _
        rcases List.mem_cons.mp hd with rfl | hd'
        · exact le_refl _
        · exact le_of_lt (hx d hd')
      · rintro ⟨ht, hat, hmin⟩
        have hx' : t ≤ x := hmin x (List.mem_cons_self _ _) hax
        rcases List.mem_cons.mp ht with rfl | ht'
        · rfl
        · exact absurd (hx t ht') (not_lt.mpr hx')
    · rw [List.find?_cons_of_neg _ (by simpa using hax)]
      rw [ih hxs]
      constructor
      · rintro ⟨ht, hat, hmin⟩
        refine ⟨List.mem_cons_of_mem _ ht, hat, ?_⟩
        intro d hd had
        rcases List.mem_cons.mp hd with rfl | hd'
        · exact absurd had hax
        · exact hmin d hd' had
      · rintro ⟨ht, hat, hmin⟩
        rcases List.mem_cons.mp ht with rfl | ht'
        · exact absurd hat hax
        · exact ⟨ht', hat, fun d hd had => hmin d (List.mem_cons_of_mem _ hd) had⟩

/-! ### Inversion lemmas for the engine -/

/-- A successful `delta`-method run determines the rows: one `deltaRow`
per aligned date, built from the anchor values. -/
theorem compute_ok_delta_inv {cb u ud : Series} {anchor : Option Date}
    {ns : Option Series} {dov : Option ℚ} {uod : Bool} {rows : List Row}
    (hok : compute_dollar_neutral cb u ud anchor "delta" ns dov uod =
      .ok rows) :
    alignedIndex cb u ud ≠ [] ∧
      ∃ t0, resolveT0 (alignedIndex cb u ud) anchor = some t0 ∧
        rows = (alignedIndex cb u ud).map
          (deltaRow cb u ud ((lookupS cb t0).getD 0) ((lookupS u t0).getD 0)
            (resolveD0 ud (alignedIndex cb u ud) t0 dov uod)) := by
  simp only [compute_dollar_neutral] at hok
  split at hok
  · exact absurd hok (by simp)
  · split at hok
    · exact absurd hok (by simp)
    · split at hok
      · exact absurd hok (by simp)
      · rename_i hm hne x t0 ht0
        rw [if_neg (by decide)] at hok
        cases hok
        exact ⟨hne, t0, ht0, rfl⟩

/-- A successful `external_nuke`-method run determines the rows: one
`externalRow` per aligned date, reading `nuke` off the supplied series. -/
theorem compute_ok_external_inv {cb u ud : Series} {anchor : Option Date}
    {ns : Option Series} {dov : Option ℚ} {uod : Bool} {rows : List Row}
    (hok : compute_dollar_neutral cb u ud anchor "external_nuke" ns
      dov uod = .ok rows) :
    alignedIndex cb u ud ≠ [] ∧
      ∃ t0 nsv, resolveT0 (alignedIndex cb u ud) anchor = some t0 ∧
        ns = some nsv ∧
        rows = (alignedIndex cb u ud).map (externalRow cb u ud nsv) := by
  simp only [compute_dollar_neutral] at hok
  split at hok
  · exact absurd hok (by simp)
  · split at hok
    · exact absurd hok (by simp)
    · split at hok
      · exact absurd hok (by simp)
      · rename_i hm hne x t0 ht0
        rw [if_pos trivial] at hok
        cases ns with
        | none => exact absurd hok (by simp)
        | some nsv =>
          cases hok
          exact ⟨hne, t0, nsv, ht0, rfl, rfl⟩

/-- The method check (source line 37) fires first, for any inputs. -/
theorem compute_unsupported {cb u ud : Series} {anchor : Option Date}
    {ns : Option Series} {dov : Option ℚ} {uod : Bool} {method : String}
    (h1 : method ≠ "delta") (h2 : method ≠ "external_nuke") :
    compute_dollar_neutral cb u ud anchor method ns dov uod =
      .error .unsupportedMethod := by
  unfold compute_dollar_neutral
  rw [if_pos ⟨h1, h2⟩]

/-- An empty aligned frame yields the overlap error for any supported
method (source lines 54–55). -/
theorem compute_empty {cb u ud : Series} {anchor : Option Date}
    {ns : Option Series} {dov : Option ℚ} {uod : Bool} {method : String}
    (hm : method = "delta" ∨ method = "external_nuke")
    (he : alignedIndex cb u ud = []) :
    compute_dollar_neutral cb u ud anchor method ns dov uod =
      .error .emptyOverlap := by
  simp only [compute_dollar_neutral]
  rw [if_neg (by rcases hm with rfl | rfl <;> simp), if_pos he]

/-- A non-resolvable anchor yields the out-of-range error for any
supported method (source lines 64–66). -/
theorem compute_anchor_oor {cb u ud : Series} {anchor : Option Date}
    {ns : Option Series} {dov : Option ℚ} {uod : Bool} {method : String}
    (hm : method = "delta" ∨ method = "external_nuke")
    (hne : alignedIndex cb u ud ≠ [])
    (ht0 : resolveT0 (alignedIndex cb u ud) anchor = none) :
    compute_dollar_neutral cb u ud anchor method ns dov uod =
      .error .anchorOutOfRange := by
  simp only [compute_dollar_neutral]
  rw [if_neg (by rcases hm with rfl | rfl <;> simp), if_neg hne, ht0]

/-- `external_nuke` without a series fails after alignment and anchor
resolution succeed (source lines 78–80). -/
theorem compute_missing_nuke {cb u ud : Series} {anchor : Option Date}
    {dov : Option ℚ} {uod : Bool} {t0 : Date}
    (hne : alignedIndex cb u ud ≠ [])
    (ht0 : resolveT0 (alignedIndex cb u ud) anchor = some t0) :
    compute_dollar_neutral cb u ud anchor "external_nuke" none dov uod =
      .error .missingNukeSeries := by
  simp only [compute_dollar_neutral]
  rw [if_neg hne, ht0]
  simp

/-- The overlap error is only ever produced by an empty aligned frame. -/
theorem compute_empty_inv {cb u ud : Series} {anchor : Option Date}
    {ns : Option Series} {dov : Option ℚ} {uod : Bool} {method : String}
    (h : compute_dollar_neutral cb u ud anchor method ns dov uod =
      .error .emptyOverlap) :
    alignedIndex cb u ud = [] := by
  simp only [compute_dollar_neutral] at h
  split at h
  · exact absurd h (by simp)
  · split at h
    · assumption
    · split at h
      · exact absurd h (by simp)
      · split at h
        · split at h
          · exact absurd h (by simp)
          · exact absurd h (by simp)
        · exact absurd h (by simp)

/-- Mapping a date-preserving row builder over the aligned index keeps the
index as the `date` column. -/
theorem map_date_of_preserving {idx : List Date} {f : Date → Row}
    (hdate : ∀ d, (f d).date = d) :
    (idx.map f).map Row.date = idx := by
  rw [List.map_map]
  have hfun : (Row.date ∘ f) = fun d => d := funext fun d => hdate d
  rw [hfun]
  exact List.map_id' idx

/-! ### Concrete fixtures used to witness the theorems -/

/-- The spec's literal fixture: four dates with all three series present. -/
def fixCB : Series := [(1, 100), (2, 101), (3, 99), (4, 102)]

def fixU : Series := [(1, 50), (2, 52), (3, 49), (4, 53)]

def fixD : Series := [(1, 3/5), (2, 7/10), (3, 13/20), (4, 3/5)]

/-- An external nuke series covering only dates 2 and 4. -/
def fixNuke : Series := [(2, 105), (4, 98)]

/-- A fixture whose aligned index [1, 2, 4, 5] has a gap at date 3. -/
def gapCB : Series := [(1, 100), (2, 101), (4, 99), (5, 102)]

def gapU : Series := [(1, 50), (2, 52), (4, 49), (5, 53)]

def gapD : Series := [(1, 3/5), (2, 7/10), (4, 13/20), (5, 3/5)]

/-- Three series sharing no date at all. -/
def disjCB : Series := [(1, 100)]

def disjU : Series := [(2, 50)]

def disjD : Series := [(3, 3/5)]

/-- Expected output of the `delta` method on the fixture, default anchor. -/
def fixRows : List Row :=
  [⟨1, 100, 50, 3/5, some 100, some 0⟩,
   ⟨2, 101, 52, 7/10, some (506/5), some (1/5)⟩,
   ⟨3, 99, 49, 13/20, some (497/5), some (2/5)⟩,
   ⟨4, 102, 53, 3/5, some (509/5), some (-1/5)⟩]

/-- Expected output of the `delta` method on the fixture, anchor date 3. -/
def fixRows3 : List Row :=
  [⟨1, 100, 50, 3/5, some (1993/20), some (-7/20)⟩,
   ⟨2, 101, 52, 7/10, some (2019/20), some (-1/20)⟩,
   ⟨3, 99, 49, 13/20, some 99, some 0⟩,
   ⟨4, 102, 53, 3/5, some (508/5), some (-2/5)⟩]

/-- Expected output of the `external_nuke` method on the fixture with
`fixNuke`: covered dates get the supplied value, uncovered dates remain
with missing derived columns. -/
def fixRowsExt : List Row :=
  [⟨1, 100, 50, 3/5, none, none⟩,
   ⟨2, 101, 52, 7/10, some 105, some 4⟩,
   ⟨3, 99, 49, 13/20, none, none⟩,
   ⟨4, 102, 53, 3/5, some 98, some (-4)⟩]

/-- Forward evaluation of a `delta`-method run. -/
theorem compute_delta_eq {cb u ud : Series} {anchor : Option Date}
    {ns : Option Series} {dov : Option ℚ} {uod : Bool} {t0 : Date}
    (hne : alignedIndex cb u ud ≠ [])
    (ht0 : resolveT0 (alignedIndex cb u ud) anchor = some t0) :
    compute_dollar_neutral cb u ud anchor "delta" ns dov uod =
      .ok ((alignedIndex cb u ud).map
        (deltaRow cb u ud ((lookupS cb t0).getD 0) ((lookupS u t0).getD 0)
          (resolveD0 ud (alignedIndex cb u ud) t0 dov uod))) := by
  simp only [compute_dollar_neutral]
  rw [if_neg hne, ht0]
  simp

/-- Forward evaluation of an `external_nuke`-method run. -/
theorem compute_external_eq {cb u ud nsv : Series} {anchor : Option Date}
    {dov : Option ℚ} {uod : Bool} {t0 : Date}
    (hne : alignedIndex cb u ud ≠ [])
    (ht0 : resolveT0 (alignedIndex cb u ud) anchor = some t0) :
    compute_dollar_neutral cb u ud anchor "external_nuke" (some nsv) dov
        uod =
      .ok ((alignedIndex cb u ud).map (externalRow cb u ud nsv)) := by
  simp only [compute_dollar_neutral]
  rw [if_neg hne, ht0]
  simp

theorem fix_aligned : alignedIndex fixCB fixU fixD = [1, 2, 3, 4] := by
  decide

/-- Concrete run: `delta` method on the fixture with the default anchor. -/
theorem fix_run_delta :
    compute_dollar_neutral fixCB fixU fixD none "delta" none none false =
      .ok fixRows := by
  rw [@compute_delta_eq fixCB fixU fixD none none none false 1 (by decide)
    (by decide)]
  rw [fix_aligned]
  norm_num [deltaRow, resolveD0, fixRows, lookupS, fixCB, fixU, fixD]

/-- Concrete run: `delta` method on the fixture anchored at date 3. -/
theorem fix_run_delta3 :
    compute_dollar_neutral fixCB fixU fixD (some 3) "delta" none none
        false = .ok fixRows3 := by
  rw [@compute_delta_eq fixCB fixU fixD (some 3) none none false 3
    (by decide) (by decide)]
  rw [fix_aligned]
  norm_num [deltaRow, resolveD0, fixRows3, lookupS, fixCB, fixU, fixD]

/-- Concrete run: `external_nuke` method on the fixture with `fixNuke`. -/
theorem fix_run_ext :
    compute_dollar_neutral fixCB fixU fixD none "external_nuke"
        (some fixNuke) none false = .ok fixRowsExt := by
  rw [@compute_external_eq fixCB fixU fixD fixNuke none none false 1
    (by decide) (by decide)]
  rw [fix_aligned]
  norm_num [externalRow, fixRowsExt, lookupS, fixCB, fixU, fixD,
    fixNuke]

/-! ### The claims -/

/-- C1: for method `delta`, every date `t` of the aligned frame satisfies
`nuke(t) = CB0 + D0 * (udlyClose(t) - U0)` and `dn(t) = nuke(t) - cbClose(t)`,
where `CB0` and `U0` are the convertible and underlying prices at the
resolved anchor date and `D0` is the resolved delta. -/
theorem delta_method_formula {cb u ud : Series} {anchor : Option Date}
    {ns : Option Series} {dov : Option ℚ} {uod : Bool} {rows : List Row}
    {t0 : Date} {CB0 U0 : ℚ} {r : Row}
    (hok : compute_dollar_neutral cb u ud anchor "delta" ns dov uod =
      .ok rows)
    (ht0 : resolveT0 (alignedIndex cb u ud) anchor = some t0)
    (hCB0 : lookupS cb t0 = some CB0) (hU0 : lookupS u t0 = some U0)
    (hr : r ∈ rows) :
    r.nuke = some (CB0 +
        resolveD0 ud (alignedIndex cb u ud) t0 dov uod * (r.udly_close - U0))
      ∧ r.dn = some (CB0 +
        resolveD0 ud (alignedIndex cb u ud) t0 dov uod * (r.udly_close - U0)
          - r.cb_close) := by
  obtain ⟨hne, t0', ht0', hrows⟩ := compute_ok_delta_inv hok
  rw [ht0] at ht0'
  cases ht0'
  subst hrows
  obtain ⟨d, hd, rfl⟩ := List.mem_map.mp hr
  simp [deltaRow, hCB0, hU0]

/-- Witness for C1 on the spec's fixture (anchor date 1, delta 3/5):
the date-2 row has `nuke = 100 + 0.6 * (52 - 50)` and
`dn = nuke - 101`. -/
theorem delta_method_formula_witness :
    (Row.mk 2 101 52 (7/10) (some (506/5)) (some (1/5))).nuke
        = some (100 + resolveD0 fixD (alignedIndex fixCB fixU fixD) 1 none
            false *
          ((Row.mk 2 101 52 (7/10) (some (506/5)) (some (1/5))).udly_close
            - 50))
      ∧ (Row.mk 2 101 52 (7/10) (some (506/5)) (some (1/5))).dn
        = some (100 + resolveD0 fixD (alignedIndex fixCB fixU fixD) 1 none
            false *
          ((Row.mk 2 101 52 (7/10) (some (506/5)) (some (1/5))).udly_close
            - 50)
          - (Row.mk 2 101 52 (7/10) (some (506/5)) (some (1/5))).cb_close) :=
  @delta_method_formula fixCB fixU fixD none none none false fixRows 1 100 50
    (Row.mk 2 101 52 (7/10) (some (506/5)) (some (1/5)))
    fix_run_delta (by decide) (by decide) (by decide)
    (List.mem_cons_of_mem _ (List.mem_cons_self _ _))

/-- C2: for method `delta`, the output contains a row at the resolved
anchor date whose `dn` is exactly zero, for every `delta_override` /
`use_oldest_delta` setting. -/
theorem zero_residual_at_anchor {cb u ud : Series} {anchor : Option Date}
    {ns : Option Series} {dov : Option ℚ} {uod : Bool} {rows : List Row}
    {t0 : Date}
    (hok : compute_dollar_neutral cb u ud anchor "delta" ns dov uod =
      .ok rows)
    (ht0 : resolveT0 (alignedIndex cb u ud) anchor = some t0) :
    ∃ r ∈ rows, r.date = t0 ∧ r.dn = some 0 := by
  obtain ⟨hne, t0', ht0', hrows⟩ := compute_ok_delta_inv hok
  rw [ht0] at ht0'
  cases ht0'
  subst hrows
  refine ⟨_, List.mem_map_of_mem _ (resolveT0_mem ht0), rfl, ?_⟩
  simp [deltaRow]

/-- Witness for C2 on the fixture with explicit anchor date 3: the date-3
row carries `dn = 0`. -/
theorem zero_residual_at_anchor_witness :
    ∃ r ∈ fixRows3, r.date = 3 ∧ r.dn = some 0 :=
  @zero_residual_at_anchor fixCB fixU fixD (some 3) none none false fixRows3 3
    fix_run_delta3 (by decide)

/-- Both row builders read their base columns straight off the inputs. -/
theorem base_fields_of_mem {cb u ud : Series} {rows : List Row} {r : Row}
    (f : Date → Row)
    (hdate : ∀ d, (f d).date = d)
    (hcb : ∀ d, (f d).cb_close = (lookupS cb d).getD 0)
    (hu : ∀ d, (f d).udly_close = (lookupS u d).getD 0)
    (hud : ∀ d, (f d).ud_delta = (lookupS ud d).getD 0)
    (hrows : rows = (alignedIndex cb u ud).map f)
    (hr : r ∈ rows) :
    lookupS cb r.date = some r.cb_close
      ∧ lookupS u r.date = some r.udly_close
      ∧ lookupS ud r.date = some r.ud_delta := by
  subst hrows
  obtain ⟨d, hd, rfl⟩ := List.mem_map.mp hr
  obtain ⟨h1, h2, h3⟩ := mem_alignedIndex.mp hd
  rw [hdate, hcb, hu, hud]
  exact ⟨getD_eq_of_isSome h1, getD_eq_of_isSome h2, getD_eq_of_isSome h3⟩

/-- C3: the output index consists exactly of the dates at which all three
inputs are present; it is strictly increasing and duplicate-free, and the
three base columns reproduce the input values at every surviving date. -/
theorem alignment_invariant {cb u ud : Series} {anchor : Option Date}
    {method : String} {ns : Option Series} {dov : Option ℚ} {uod : Bool}
    {rows : List Row}
    (hok : compute_dollar_neutral cb u ud anchor method ns dov uod =
      .ok rows) :
    List.Sorted (· < ·) (rows.map Row.date)
      ∧ (rows.map Row.date).Nodup
      ∧ (∀ d : Date, d ∈ rows.map Row.date ↔
          ((lookupS cb d).isSome ∧ (lookupS u d).isSome ∧
            (lookupS ud d).isSome))
      ∧ ∀ r ∈ rows, lookupS cb r.date = some r.cb_close
          ∧ lookupS u r.date = some r.udly_close
          ∧ lookupS ud r.date = some r.ud_delta := by
  have hcore : rows.map Row.date = alignedIndex cb u ud ∧
      ∀ r ∈ rows, lookupS cb r.date = some r.cb_close
        ∧ lookupS u r.date = some r.udly_close
        ∧ lookupS ud r.date = some r.ud_delta := by
    by_cases hm : method = "delta"
    · subst hm
      obtain ⟨-, t0, -, hrows⟩ := compute_ok_delta_inv hok
      refine ⟨hrows ▸ map_date_of_preserving fun d => rfl, ?_⟩
      intro r hr
      exact base_fields_of_mem _ (fun d => rfl) (fun d => rfl) (fun d => rfl)
        (fun d => rfl) hrows hr
    · by_cases hm2 : method = "external_nuke"
      · subst hm2
        obtain ⟨-, t0, nsv, -, -, hrows⟩ := compute_ok_external_inv hok
        refine ⟨hrows ▸ map_date_of_preserving fun d => rfl, ?_⟩
        intro r hr
        exact base_fields_of_mem _ (fun d => rfl) (fun d => rfl)
          (fun d => rfl) (fun d => rfl) hrows hr
      · rw [compute_unsupported hm hm2] at hok
        exact absurd hok (by simp)
  obtain ⟨hmap, hfields⟩ := hcore
  rw [hmap]
  exact ⟨alignedIndex_sorted cb u ud, alignedIndex_nodup cb u ud,
    fun d => mem_alignedIndex, hfields⟩

/-- Witness for C3: on the fixture run, date 2 is in the output index and
the date-2 row reproduces the inputs. -/
theorem alignment_invariant_witness :
    (2 ∈ fixRows.map Row.date ↔
      ((lookupS fixCB 2).isSome ∧ (lookupS fixU 2).isSome ∧
        (lookupS fixD 2).isSome)) :=
  (alignment_invariant fix_run_delta).2.2.1 2

/-- C4: anchor resolution.  With no requested anchor, T0 is the earliest
aligned date; a requested date in the index is used as-is; a requested
date not in the index snaps to the least aligned date on/after it; and
when no aligned date is on/after the requested date the call fails with
the anchor-out-of-range error. -/
theorem anchor_resolution (cb u ud : Series) :
    (∀ t0, resolveT0 (alignedIndex cb u ud) none = some t0 →
        t0 ∈ alignedIndex cb u ud ∧ ∀ d ∈ alignedIndex cb u ud, t0 ≤ d)
      ∧ (∀ a, a ∈ alignedIndex cb u ud →
          resolveT0 (alignedIndex cb u ud) (some a) = some a)
      ∧ (∀ a t0, a ∉ alignedIndex cb u ud →
          (resolveT0 (alignedIndex cb u ud) (some a) = some t0 ↔
            t0 ∈ alignedIndex cb u ud ∧ a ≤ t0 ∧
              ∀ d ∈ alignedIndex cb u ud, a ≤ d → t0 ≤ d))
      ∧ ∀ a (method : String) (ns : Option Series) (dov : Option ℚ)
          (uod : Bool), (method = "delta" ∨ method = "external_nuke") →
          alignedIndex cb u ud ≠ [] →
          (∀ d ∈ alignedIndex cb u ud, ¬a ≤ d) →
          compute_dollar_neutral cb u ud (some a) method ns dov uod =
            .error .anchorOutOfRange := by
  refine ⟨?_, ?_, ?_, ?_⟩
  · intro t0 h
    simp only [resolveT0] at h
    exact ⟨List.mem_of_mem_head? (Option.mem_def.mpr h),
      head?_le_of_sorted (alignedIndex_sorted cb u ud) h⟩
  · intro a ha
    simp only [resolveT0]
    rw [if_pos ha]
  · intro a t0 ha
    simp only [resolveT0]
    rw [if_neg ha]
    exact find?_ge_eq_some_iff (alignedIndex_sorted cb u ud)
  · intro a method ns dov uod hm hne hlt
    refine compute_anchor_oor hm hne ?_
    have ha : a ∉ alignedIndex cb u ud := fun ha =>
      hlt a ha (le_refl a)
    simp only [resolveT0]
    rw [if_neg ha]
    exact List.find?_eq_none.mpr fun d hd => by simpa using hlt d hd

/-- Witness for C4 on the gap fixture (aligned dates [1, 2, 4, 5]): the
requested anchor 3 is absent and snaps forward to date 4. -/
theorem anchor_resolution_witness :
    resolveT0 (alignedIndex gapCB gapU gapD) (some 3) = some 4 :=
  ((anchor_resolution gapCB gapU gapD).2.2.1 3 4 (by decide)).mpr
    (by decide)

/-- C5: for method `external_nuke`, aligned dates covered by the supplied
series get its value as `nuke` and `dn = nuke - cbClose`; uncovered
aligned dates are retained in the output with missing `nuke` and `dn`. -/
theorem external_nuke_passthrough {cb u ud nsv : Series}
    {anchor : Option Date} {dov : Option ℚ} {uod : Bool} {rows : List Row}
    (hok : compute_dollar_neutral cb u ud anchor "external_nuke" (some nsv)
      dov uod = .ok rows) :
    rows.map Row.date = alignedIndex cb u ud
      ∧ ∀ r ∈ rows,
          (∀ v, lookupS nsv r.date = some v →
            r.nuke = some v ∧ r.dn = some (v - r.cb_close))
          ∧ (lookupS nsv r.date = none → r.nuke = none ∧ r.dn = none) := by
  obtain ⟨-, t0, nsv', -, hns, hrows⟩ := compute_ok_external_inv hok
  cases hns
  subst hrows
  refine ⟨map_date_of_preserving fun d => rfl, ?_⟩
  intro r hr
  obtain ⟨d, hd, rfl⟩ := List.mem_map.mp hr
  constructor
  · intro v hv
    simp only [externalRow] at hv ⊢
    rw [hv]
    exact ⟨rfl, rfl⟩
  · intro hv
    simp only [externalRow] at hv ⊢
    rw [hv]
    exact ⟨rfl, rfl⟩

/-- Witness for C5 on the fixture with `fixNuke` (covers dates 2 and 4):
the date-2 row takes the supplied value 105 and `dn = 105 - 101`; using
the covered-date branch at the concrete row. -/
theorem external_nuke_passthrough_witness :
    (∀ v, lookupS fixNuke
        (Row.mk 2 101 52 (7/10) (some 105) (some 4)).date = some v →
      (Row.mk 2 101 52 (7/10) (some 105) (some 4)).nuke = some v
        ∧ (Row.mk 2 101 52 (7/10) (some 105) (some 4)).dn =
          some (v - (Row.mk 2 101 52 (7/10) (some 105) (some 4)).cb_close))
    ∧ (lookupS fixNuke
        (Row.mk 2 101 52 (7/10) (some 105) (some 4)).date = none →
      (Row.mk 2 101 52 (7/10) (some 105) (some 4)).nuke = none
        ∧ (Row.mk 2 101 52 (7/10) (some 105) (some 4)).dn = none) :=
  (external_nuke_passthrough fix_run_ext).2
    (Row.mk 2 101 52 (7/10) (some 105) (some 4))
    (List.mem_cons_of_mem _ (List.mem_cons_self _ _))

/-- C6: `delta_override` fixes D0 unconditionally (also when
`use_oldest_delta` is set); otherwise `use_oldest_delta` reads the delta
at the earliest aligned date, and otherwise D0 is the delta at the
anchor. -/
theorem delta_source_precedence (cb u ud : Series) (t0 : Date) :
    (∀ (v : ℚ) (uod : Bool),
        resolveD0 ud (alignedIndex cb u ud) t0 (some v) uod = v)
      ∧ (resolveD0 ud (alignedIndex cb u ud) t0 none true =
          (lookupS ud ((alignedIndex cb u ud).headD 0)).getD 0
        ∧ ∀ d ∈ alignedIndex cb u ud, (alignedIndex cb u ud).headD 0 ≤ d)
      ∧ resolveD0 ud (alignedIndex cb u ud) t0 none false =
          (lookupS ud t0).getD 0 := by
  refine ⟨fun v uod => rfl, ⟨rfl, ?_⟩, rfl⟩
  intro d hd
  cases hidx : alignedIndex cb u ud with
  | nil => rw [hidx] at hd; simp at hd
  | cons x xs =>
    rw [hidx] at hd
    have := head?_le_of_sorted (hidx ▸ alignedIndex_sorted cb u ud)
      (l := x :: xs) rfl d hd
    simpa using this

/-- Witness for C6: with both `delta_override = 1/2` and
`use_oldest_delta = true` on the fixture, D0 is the override. -/
theorem delta_source_precedence_witness :
    resolveD0 fixD (alignedIndex fixCB fixU fixD) 1 (some (1/2)) true =
      1/2 :=
  (delta_source_precedence fixCB fixU fixD 1).1 (1/2) true

/-- C7: for a supported method, the call fails with the empty-overlap
error exactly when no date has all three input values present. -/
theorem empty_overlap_iff {cb u ud : Series} {anchor : Option Date}
    {ns : Option Series} {dov : Option ℚ} {uod : Bool} {method : String}
    (hm : method = "delta" ∨ method = "external_nuke") :
    (compute_dollar_neutral cb u ud anchor method ns dov uod =
        .error .emptyOverlap ↔ alignedIndex cb u ud = [])
      ∧ (alignedIndex cb u ud = [] ↔
          ∀ d : Date, ¬((lookupS cb d).isSome ∧ (lookupS u d).isSome ∧
            (lookupS ud d).isSome)) := by
  refine ⟨⟨compute_empty_inv, compute_empty hm⟩, ?_, ?_⟩
  · intro he d hd
    have hmem := mem_alignedIndex.mpr hd
    rw [he] at hmem
    simp at hmem
  · intro hall
    rcases hx : alignedIndex cb u ud with _ | ⟨x, xs⟩
    · rfl
    · exfalso
      refine hall x (mem_alignedIndex.mp ?_)
      rw [hx]
      exact List.mem_cons_self x xs

/-- Witness for C7: three series sharing no date raise the overlap
error. -/
theorem empty_overlap_iff_witness :
    compute_dollar_neutral disjCB disjU disjD none "delta" none none
        false = .error .emptyOverlap :=
  (empty_overlap_iff (Or.inl rfl)).1.mpr (by decide)

/-- C8: selecting `external_nuke` without a nuke series fails with the
missing-series error, for inputs passing alignment and anchor
resolution. -/
theorem missing_nuke_series_error {cb u ud : Series} {anchor : Option Date}
    {dov : Option ℚ} {uod : Bool} {t0 : Date}
    (hne : alignedIndex cb u ud ≠ [])
    (ht0 : resolveT0 (alignedIndex cb u ud) anchor = some t0) :
    compute_dollar_neutral cb u ud anchor "external_nuke" none dov uod =
      .error .missingNukeSeries :=
  compute_missing_nuke hne ht0

/-- Witness for C8 on the fixture. -/
theorem missing_nuke_series_error_witness :
    compute_dollar_neutral fixCB fixU fixD none "external_nuke" none none
        false = .error .missingNukeSeries :=
  @missing_nuke_series_error fixCB fixU fixD none none false 1 (by decide)
    (by decide)

/-- C9: any method other than `delta` and `external_nuke` fails with the
unsupported-method error. -/
theorem unsupported_method_error {cb u ud : Series} {anchor : Option Date}
    {ns : Option Series} {dov : Option ℚ} {uod : Bool} {method : String}
    (h1 : method ≠ "delta") (h2 : method ≠ "external_nuke") :
    compute_dollar_neutral cb u ud anchor method ns dov uod =
      .error .unsupportedMethod :=
  compute_unsupported h1 h2

/-- Witness for C9 with the arbitrary method string "foo". -/
theorem unsupported_method_error_witness :
    compute_dollar_neutral fixCB fixU fixD none "foo" none none false =
      .error .unsupportedMethod :=
  @unsupported_method_error fixCB fixU fixD none none none false "foo"
    (by decide) (by decide)

/-- C10: error-check precedence.  The method check precedes alignment
(an unsupported method wins over any overlap or anchor problem); the
empty-overlap check precedes anchor resolution; and anchor resolution
precedes the missing-nuke-series check, so an out-of-range anchor with
`external_nuke` and no series reports the anchor error. -/
theorem error_check_precedence :
    (∀ (cb u ud : Series) (anchor : Option Date) (ns : Option Series)
        (dov : Option ℚ) (uod : Bool) (method : String),
        method ≠ "delta" → method ≠ "external_nuke" →
        compute_dollar_neutral cb u ud anchor method ns dov uod =
          .error .unsupportedMethod)
      ∧ (∀ (cb u ud : Series) (anchor : Option Date) (ns : Option Series)
          (dov : Option ℚ) (uod : Bool) (method : String),
          (method = "delta" ∨ method = "external_nuke") →
          alignedIndex cb u ud = [] →
          compute_dollar_neutral cb u ud anchor method ns dov uod =
            .error .emptyOverlap)
      ∧ ∀ (cb u ud : Series) (anchor : Option Date) (dov : Option ℚ)
          (uod : Bool),
          alignedIndex cb u ud ≠ [] →
          resolveT0 (alignedIndex cb u ud) anchor = none →
          compute_dollar_neutral cb u ud anchor "external_nuke" none dov
            uod = .error .anchorOutOfRange :=
  ⟨fun _ _ _ _ _ _ _ _ h1 h2 => compute_unsupported h1 h2,
   fun _ _ _ _ _ _ _ _ hm he => compute_empty hm he,
   fun _ _ _ _ _ _ hne ht0 => compute_anchor_oor (Or.inr rfl) hne ht0⟩

/-- Witness for C10: on the fixture with anchor date 10 (after the last
aligned date), `external_nuke` with no series reports the anchor error,
not the missing-series error. -/
theorem error_check_precedence_witness :
    compute_dollar_neutral fixCB fixU fixD (some 10) "external_nuke" none
        none false = .error .anchorOutOfRange :=
  error_check_precedence.2.2 fixCB fixU fixD (some 10) none false
    (by decide) (by decide)

end Bquant
